import Mathlib

/-!
Shallow embedding of `schedule_filler.py` (repository `music_demo`).

Times of day are modelled as `Nat` seconds since midnight (Python
`datetime.time` is totally ordered and all arithmetic performed by the
script stays within one day).  Rows are `List String`, synthetic events
are captured by the `Event` structure holding the exact arguments the
script passes to its row constructor `create_new_row`.  The two
`random.choice` draws (canteen for meals, library for study blocks) are
passed in as explicit parameters: the script is deterministic once the
location draws are fixed, and no property below depends on which
location was drawn.
-/

namespace ScheduleFiller

/-- `DAY_START = time(7, 0, 0)` in seconds since midnight. -/
def DAY_START : Nat := 7 * 3600

/-- `DAY_END = time(22, 0, 0)` in seconds since midnight. -/
def DAY_END : Nat := 22 * 3600

/-- `LUNCH_START = time(11, 30, 0)`. -/
def LUNCH_START : Nat := 11 * 3600 + 30 * 60

/-- `LUNCH_END = time(13, 30, 0)`. -/
def LUNCH_END : Nat := 13 * 3600 + 30 * 60

/-- `DINNER_START = time(17, 30, 0)`. -/
def DINNER_START : Nat := 17 * 3600 + 30 * 60

/-- `DINNER_END = time(19, 0, 0)`. -/
def DINNER_END : Nat := 19 * 3600

/-! ## Time Range Parser (`parse_start_end_from_string`) -/

/-- Numeric value of a two-digit character pair, as `int` does on the
two characters of a matched `\d{2}` group. -/
def char2 (a b : Char) : Nat := 10 * (a.toNat - 48) + (b.toNat - 48)

/-- The scan performed by `re.findall(r'(\d{2}:\d{2}:\d{2})', s)`:
left-to-right, non-overlapping, fixed-width matches of the pattern
digit digit `:` digit digit `:` digit digit.  (Python's `\d` also
accepts non-ASCII decimal digits, which `time.fromisoformat` then
rejects; the model restricts to ASCII digits, the only ones the script
ever produces or successfully parses.)  Each match is returned as its
(hour, minute, second) digit values. -/
def findTimesAux : Nat → List Char → List (Nat × Nat × Nat)
  | 0, _ => []
  | fuel + 1, a :: b :: c :: d :: e :: f :: g :: h :: rest =>
    if a.isDigit ∧ b.isDigit ∧ c = ':' ∧ d.isDigit ∧ e.isDigit ∧ f = ':' ∧
        g.isDigit ∧ h.isDigit then
      (char2 a b, char2 d e, char2 g h) :: findTimesAux fuel rest
    else
      findTimesAux fuel (b :: c :: d :: e :: f :: g :: h :: rest)
  | _, _ => []

def findTimes (l : List Char) : List (Nat × Nat × Nat) :=
  findTimesAux l.length l

/-- `time.fromisoformat` succeeds on an `HH:MM:SS` string exactly when
the components are a valid wall-clock time. -/
def isValidHMS : Nat × Nat × Nat → Bool
  | (h, m, s) => decide (h < 24) && decide (m < 60) && decide (s < 60)

/-- Seconds since midnight of an (hour, minute, second) triple. -/
def toSecs : Nat × Nat × Nat → Nat
  | (h, m, s) => h * 3600 + m * 60 + s

/-- `parse_start_end_from_string`: two regex matches that both parse as
valid times yield `some (start, end)`; zero, one, or more than two
matches, or an out-of-range component, yield the failure result
(`(None, None)` in the script, `none` here). -/
def parse_start_end_from_string (str : String) : Option (Nat × Nat) :=
  match findTimes str.data with
  | [t1, t2] =>
    if isValidHMS t1 && isValidHMS t2 then some (toSecs t1, toSecs t2)
    else none
  | _ => none

/-! ## Serialization (`format_time_range`) -/

/-- The ASCII digit character for `n < 10`. -/
def digitChar (n : Nat) : Char := Char.ofNat (48 + n)

/-- Two-digit zero-padded rendering, as `time.isoformat` uses for each
component. -/
def pad2 (n : Nat) : String := String.mk [digitChar (n / 10), digitChar (n % 10)]

/-- `t.isoformat()` for a whole-second time: `HH:MM:SS`. -/
def fmtTime (n : Nat) : String :=
  pad2 (n / 3600) ++ ":" ++ pad2 (n % 3600 / 60) ++ ":" ++ pad2 (n % 60)

/-- `format_time_range`: `"[1900-01-01 {start}, 1900-01-01 {end}]"`. -/
def format_time_range (start_t end_t : Nat) : String :=
  "[1900-01-01 " ++ fmtTime start_t ++ ", 1900-01-01 " ++ fmtTime end_t ++ "]"

/-! ## Free-Slot Computer (`print_free_slots`) -/

/-- The cursor loop of `print_free_slots` followed by the final
emission: for each busy interval, emit `[cursor, start)` when the start
is strictly after the cursor and advance the cursor to
`max cursor end`; after the loop emit `[cursor, DAY_END)` when the
cursor is strictly before `DAY_END`. -/
def free_slots_go (cur : Nat) : List (Nat × Nat) → List (Nat × Nat)
  | [] => if cur < DAY_END then [(cur, DAY_END)] else []
  | (s, e) :: rest =>
    (if cur < s then [(cur, s)] else []) ++ free_slots_go (max cur e) rest

/-- `print_free_slots` (printing stripped): the free intervals of a day
given its busy intervals, cursor initialised to `DAY_START`. -/
def print_free_slots (classes : List (Nat × Nat)) : List (Nat × Nat) :=
  free_slots_go DAY_START classes

/-! ## Gap Filler (`fill_free_time`) -/

/-- The argument tuple of a `create_new_row` call: activity label,
location `(type, name)` pair, interval start and end. -/
structure Event where
  activity : String
  loc : String × String
  start : Nat
  stop : Nat
deriving DecidableEq

/-- The loop over `free_slots[1:-1]` (when more than two slots exist):
carve lunch out of the first interval overlapping the lunch window —
provided the `ate_lunch` flag is still unset — and emit study blocks
for everything else. -/
def processMiddles (canteen library : String × String) :
    Bool → List (Nat × Nat) → List Event
  | _, [] => []
  | ate, (s, e) :: rest =>
    let los := max s LUNCH_START
    let loe := min e LUNCH_END
    if ate = false ∧ los < loe then
      (if s < los then [⟨"自习", library, s, los⟩] else [])
      ++ [⟨"午餐", canteen, los, los + min (loe - los) 3600⟩]
      ++ (if los + min (loe - los) 3600 < e then
            [⟨"自习", library, los + min (loe - los) 3600, e⟩] else [])
      ++ processMiddles canteen library true rest
    else
      (if s < e then [⟨"自习", library, s, e⟩] else [])
      ++ processMiddles canteen library ate rest

/-- `free_slots[1:-1] if len(free_slots) > 2 else []`. -/
def middles (slots : List (Nat × Nat)) : List (Nat × Nat) :=
  if slots.length > 2 then (slots.drop 1).dropLast else []

/-- The tail of `fill_free_time`: the dinner / return-to-dorm handling
of the last slot when more than one slot exists, or the whole-day-free
record when exactly one slot exists. -/
def lastPart (home_dorm canteen library : String × String)
    (slots : List (Nat × Nat)) : List Event :=
  if slots.length > 1 then
    match slots.getLast? with
    | none => []
    | some (ls, le) =>
      let dos := max ls DINNER_START
      let doe := min le DINNER_END
      if dos < doe then
        (if ls < dos then [⟨"自习", library, ls, dos⟩] else [])
        ++ [⟨"晚餐", canteen, dos, dos + min (doe - dos) 3600⟩]
        ++ (if dos + min (doe - dos) 3600 < le then
              [⟨"晚上休息/回宿舍", home_dorm, dos + min (doe - dos) 3600, le⟩]
            else [])
      else
        (if ls < le then [⟨"晚上休息/回宿舍", home_dorm, ls, le⟩] else [])
  else if slots.length = 1 then
    match slots.head? with
    | none => []
    | some (ss, se) => [⟨"休息/自由活动", home_dorm, ss, se⟩]
  else []

/-- `fill_free_time`, at the level of `create_new_row` argument tuples,
in emission order: the unconditional wake/breakfast record for the
first slot, then the interior loop, then the last-slot (or
single-slot) handling.  `day_name` does not influence the events (it
only enters the serialized rows) but is kept for signature fidelity. -/
def fill_free_time (day_name : String) (free_slots : List (Nat × Nat))
    (home_dorm canteen library : String × String) : List Event :=
  match free_slots with
  | [] => []
  | (fs, fe) :: _ =>
    ⟨"起床/准备/早餐", home_dorm, fs, fe⟩
    :: (processMiddles canteen library false (middles free_slots)
        ++ lastPart home_dorm canteen library free_slots)

/-- `create_new_row`: the nine fixed fields, padded with `"-"` while
shorter than `header_length`, then truncated to `header_length`. -/
def create_new_row (day_name : String) (header_length : Nat) (ev : Event) :
    List String :=
  let event := [ev.activity, day_name, "-", "-", "-", "-", ev.loc.1, ev.loc.2,
    format_time_range ev.start ev.stop]
  (event ++ List.replicate (header_length - event.length) "-").take header_length

/-! ## Day Assembler / Sort (`day_map`, `get_sort_key`) -/

/-- The fixed seven-entry weekday dictionary of `main`. -/
def day_map : List (String × Nat) :=
  [("星期1", 1), ("星期2", 2), ("星期3", 3), ("星期4", 4), ("星期5", 5),
   ("星期6", 6), ("星期7", 7)]

/-- `day_map.get(d, 8)`. -/
def dayMapGet (d : String) : Nat :=
  match day_map.find? (fun p => p.1 == d) with
  | some p => p.2
  | none => 8

/-- `get_sort_key`: weekday ordinal from field 1 (default 8), start
time re-parsed from the last field (default `time(0, 0, 0)`, i.e. 0
seconds, when the row is empty or the field does not parse). -/
def get_sort_key (row : List String) : Nat × Nat :=
  let day_key := match row.get? 1 with
    | some d => dayMapGet d
    | none => 8
  match row.getLast? with
  | some s =>
    match parse_start_end_from_string s with
    | some (st, _) => (day_key, st)
    | none => (day_key, 0)
  | none => (day_key, 0)

/-- Lexicographic comparison of sort keys, as Python compares the
`(int, time)` tuples returned by `get_sort_key`. -/
def keyLE (x y : Nat × Nat) : Bool :=
  decide (x.1 < y.1 ∨ (x.1 = y.1 ∧ x.2 ≤ y.2))

/-- `all_events_to_write.sort(key=get_sort_key)`: a stable sort by the
lexicographic order on keys. -/
def sortRows (rows : List (List String)) : List (List String) :=
  rows.mergeSort (fun a b => keyLE (get_sort_key a) (get_sort_key b))

/-! ## Properties of the Free-Slot Computer -/

/-- Every interval emitted by the cursor loop starts no earlier than the
cursor and has strictly positive length. -/
lemma free_slots_go_mem :
    ∀ (cs : List (Nat × Nat)) (cur : Nat), ∀ p ∈ free_slots_go cur cs,
      cur ≤ p.1 ∧ p.1 < p.2 := by
  intro cs
  induction cs with
  | nil =>
    intro cur p hp
    simp only [free_slots_go] at hp
    split at hp
    · simp only [List.mem_singleton] at hp
      subst hp
      exact ⟨Nat.le_refl _, by assumption⟩
    · simp at hp
  | cons q tail ih =>
    intro cur p hp
    obtain ⟨s, e⟩ := q
    simp only [free_slots_go, List.mem_append] at hp
    rcases hp with hp | hp
    · split at hp
      · simp only [List.mem_singleton] at hp
        subst hp
        exact ⟨Nat.le_refl _, by assumption⟩
      · simp at hp
    · have h := ih (max cur e) p hp
      exact ⟨Nat.le_trans (Nat.le_max_left _ _) h.1, h.2⟩

/-- With valid busy intervals (`start ≤ end`), the emitted free
intervals have strictly increasing start times. -/
lemma free_slots_go_pairwise :
    ∀ (cs : List (Nat × Nat)), (∀ p ∈ cs, p.1 ≤ p.2) →
      ∀ cur : Nat,
        (free_slots_go cur cs).Pairwise (fun p q => p.1 < q.1) := by
  intro cs
  induction cs with
  | nil =>
    intro _ cur
    simp only [free_slots_go]
    split <;> simp
  | cons q tail ih =>
    intro hv cur
    obtain ⟨s, e⟩ := q
    have hse : s ≤ e := hv (s, e) (List.mem_cons_self _ _)
    have hvt : ∀ p ∈ tail, p.1 ≤ p.2 := fun p hp => hv p (List.mem_cons_of_mem _ hp)
    simp only [free_slots_go]
    rw [List.pairwise_append]
    refine ⟨?_, ih hvt (max cur e), ?_⟩
    · split <;> simp
    · intro a ha b hb
      have hb1 := (free_slots_go_mem tail (max cur e) b hb).1
      split at ha
      · simp only [List.mem_singleton] at ha
        subst ha
        have : e ≤ max cur e := Nat.le_max_right _ _
        simp only []
        omega
      · simp at ha

/-- Claim C5: the Free-Slot Computer.  Zero busy intervals yield the
single free interval `[DAY_START, DAY_END)`; a busy interval covering
the whole day yields zero free intervals; and for any start-sorted
(possibly overlapping) sequence of valid busy intervals, every emitted
free interval has strictly positive length and no emitted interval
duplicates another (their start times strictly increase). -/
theorem free_slot_computer_properties :
    print_free_slots [] = [(DAY_START, DAY_END)]
    ∧ (∀ s e : Nat, s ≤ DAY_START → DAY_END ≤ e → print_free_slots [(s, e)] = [])
    ∧ (∀ cs : List (Nat × Nat),
        List.Chain' (fun p q : Nat × Nat => p.1 ≤ q.1) cs →
        (∀ p ∈ cs, p.1 ≤ p.2) →
        (∀ p ∈ print_free_slots cs, p.1 < p.2)
        ∧ (print_free_slots cs).Pairwise (fun p q => p ≠ q)) := by
  refine ⟨by decide, ?_, ?_⟩
  · intro s e hs he
    simp only [print_free_slots, free_slots_go]
    have h1 : ¬ DAY_START < s := by omega
    have h2 : max DAY_START e = e := Nat.max_eq_right (by simp [DAY_START, DAY_END] at he ⊢; omega)
    have h3 : ¬ e < DAY_END := by omega
    simp [h1, h2, h3]
  · intro cs _ hv
    refine ⟨?_, ?_⟩
    · intro p hp
      exact (free_slots_go_mem cs DAY_START p hp).2
    · exact (free_slots_go_pairwise cs hv DAY_START).imp
        (fun h heq => by rw [heq] at h; exact Nat.lt_irrefl _ h)

/-- Witness for `free_slot_computer_properties`: a busy interval
covering the day leaves no free time, and overlapping start-sorted busy
intervals still produce positive, duplicate-free slots. -/
theorem free_slot_computer_properties_witness :
    print_free_slots [(25200, 80000)] = []
    ∧ (∀ p ∈ print_free_slots [(28800, 30000), (28800, 36000)], p.1 < p.2)
    ∧ (print_free_slots [(28800, 30000), (28800, 36000)]).Pairwise
        (fun p q => p ≠ q) :=
  ⟨free_slot_computer_properties.2.1 25200 80000 (by decide) (by decide),
   (free_slot_computer_properties.2.2 [(28800, 30000), (28800, 36000)]
      (by simp [List.chain'_cons]) (by decide)).1,
   (free_slot_computer_properties.2.2 [(28800, 30000), (28800, 36000)]
      (by simp [List.chain'_cons]) (by decide)).2⟩

/-! ## Tiling of the day by busy and free intervals -/

/-- Precondition for the tiling lemma, threading the cursor: each busy
interval starts at or after the cursor, is valid, ends within the day,
and the remaining ones satisfy the same from its end. -/
def okFrom : Nat → List (Nat × Nat) → Prop
  | _, [] => True
  | cur, (s, e) :: rest => cur ≤ s ∧ s ≤ e ∧ e ≤ DAY_END ∧ okFrom e rest

/-- Membership test of an instant in a half-open interval. -/
def memB (t : Nat) (p : Nat × Nat) : Bool := decide (p.1 ≤ t) && decide (t < p.2)

/-- Counting lemma behind the tiling property: busy intervals together
with the free intervals the cursor loop emits cover each instant of
`[cur, DAY_END)` exactly once and nothing else. -/
lemma countP_tiling :
    ∀ (cs : List (Nat × Nat)) (cur t : Nat), cur ≤ DAY_END → okFrom cur cs →
      (cs ++ free_slots_go cur cs).countP (memB t)
        = if cur ≤ t ∧ t < DAY_END then 1 else 0 := by
  intro cs
  induction cs with
  | nil =>
    intro cur t hc _
    simp only [List.nil_append, free_slots_go]
    by_cases h : cur < DAY_END
    · simp only [if_pos h, List.countP_cons, List.countP_nil, memB,
        Bool.and_eq_true, decide_eq_true_eq]
      split_ifs <;> omega
    · simp only [if_neg h, List.countP_nil]
      rw [if_neg (by omega)]
  | cons q tail ih =>
    intro cur t hc ho
    obtain ⟨s, e⟩ := q
    obtain ⟨h1, h2, h3, h4⟩ := ho
    have hmax : max cur e = e := Nat.max_eq_right (Nat.le_trans h1 h2)
    have IH := ih e t h3 h4
    rw [List.countP_append] at IH
    simp only [free_slots_go, hmax, List.cons_append, List.countP_cons,
      List.countP_append]
    by_cases hcs : cur < s
    · simp only [if_pos hcs, List.countP_cons, List.countP_nil]
      simp only [memB, Bool.and_eq_true, decide_eq_true_eq] at IH ⊢
      split_ifs at IH ⊢ <;> omega
    · simp only [if_neg hcs, List.countP_nil]
      simp only [memB, Bool.and_eq_true, decide_eq_true_eq] at IH ⊢
      split_ifs at IH ⊢ <;> omega

/-- Start-sorted, pairwise-disjoint, in-day busy intervals satisfy the
cursor precondition from any cursor at or before the first start. -/
lemma chain_bounds_okFrom :
    ∀ (cs : List (Nat × Nat)) (cur : Nat),
      (∀ p ∈ cs, p.1 ≤ p.2 ∧ p.2 ≤ DAY_END) →
      List.Chain' (fun p q : Nat × Nat => p.2 ≤ q.1) cs →
      (∀ q ∈ cs.head?, cur ≤ q.1) → okFrom cur cs := by
  intro cs
  induction cs with
  | nil => intro cur _ _ _; trivial
  | cons q tail ih =>
    intro cur hb hch hh
    obtain ⟨s, e⟩ := q
    have hse := hb (s, e) (List.mem_cons_self _ _)
    refine ⟨hh (s, e) (by simp), hse.1, hse.2, ?_⟩
    refine ih e (fun p hp => hb p (List.mem_cons_of_mem _ hp)) hch.tail ?_
    intro r hr
    match tail, hr with
    | (a, b) :: ts, hr =>
      simp only [List.head?_cons, Option.mem_some_iff] at hr
      subst hr
      exact (List.chain'_cons.mp hch).1

/-- Claim C3: the tiling property.  For busy intervals that are valid,
lie within `[DAY_START, DAY_END)` and are sorted and pairwise
non-overlapping (each ends at or before the next starts), the busy
intervals together with the Free-Slot Computer's output cover every
instant of `[DAY_START, DAY_END)` exactly once — no gap (count ≥ 1), no
overlap (count ≤ 1) — and cover nothing outside the day.  Counting
instants is order-independent, so this also covers the sorted-by-start
concatenation of the claim. -/
theorem busy_free_tiling :
    ∀ busy : List (Nat × Nat),
      (∀ p ∈ busy, DAY_START ≤ p.1 ∧ p.1 ≤ p.2 ∧ p.2 ≤ DAY_END) →
      List.Chain' (fun p q : Nat × Nat => p.2 ≤ q.1) busy →
      ∀ t : Nat,
        (busy ++ print_free_slots busy).countP (memB t)
          = if DAY_START ≤ t ∧ t < DAY_END then 1 else 0 := by
  intro busy hb hch t
  refine countP_tiling busy DAY_START t (by decide) ?_
  refine chain_bounds_okFrom busy DAY_START
    (fun p hp => ⟨(hb p hp).2.1, (hb p hp).2.2⟩) hch ?_
  intro q hq
  exact (hb q (List.mem_of_mem_head? hq)).1

/-- Witness for `busy_free_tiling`: one class `09:00–10:35`; the
instant `08:20` (busy-free morning) is covered exactly once. -/
theorem busy_free_tiling_witness :
    (([(32400, 38100)] : List (Nat × Nat))
        ++ print_free_slots [(32400, 38100)]).countP (memB 30000)
      = if DAY_START ≤ 30000 ∧ 30000 < DAY_END then 1 else 0 :=
  busy_free_tiling [(32400, 38100)] (by decide) (by simp) 30000

/-! ## The single-free-slot path of the Gap Filler -/

/-- Claim C2 (failing input): on a single free interval covering the
whole day, `fill_free_time` emits TWO records — the unconditional
wake/prepare/breakfast record of the first-slot branch AND the
rest/free-time record of the `len(free_slots) == 1` branch — both
spanning the entire interval, instead of the single rest record the
specification describes. -/
theorem single_slot_emits_two_records :
    fill_free_time "星期1" [(DAY_START, DAY_END)]
        ("宿舍", "001栋") ("食堂", "01") ("图书馆", "1")
      = [⟨"起床/准备/早餐", ("宿舍", "001栋"), DAY_START, DAY_END⟩,
         ⟨"休息/自由活动", ("宿舍", "001栋"), DAY_START, DAY_END⟩] := rfl

/-- Claim C1 (failing input): on the same single free interval the two
emitted records both contain the instant `11:06:40`, so the emitted
intervals do not concatenate to the input span — an instant is covered
by two synthetic records. -/
theorem single_slot_instant_double_covered :
    (fill_free_time "星期1" [(DAY_START, DAY_END)]
        ("宿舍", "001栋") ("食堂", "01") ("图书馆", "1")).countP
      (fun ev => decide (ev.start ≤ 40000) && decide (40000 < ev.stop)) = 2 := rfl

/-! ## Meal-cap leftover -/

/-- Claim C4 (counterexample): interior free interval `[11:00, 14:00)`
overlaps the lunch window by two hours; lunch is capped at one hour
(`11:30–12:30`), and the leftover overlap `12:30–13:30` is NOT dropped:
it is covered by the trailing study record `12:30–14:00`. -/
theorem lunch_leftover_goes_to_trailing_study :
    fill_free_time "星期1" [(25200, 32400), (39600, 50400), (68400, 79200)]
        ("宿舍", "001栋") ("食堂", "01") ("图书馆", "1")
      = [⟨"起床/准备/早餐", ("宿舍", "001栋"), 25200, 32400⟩,
         ⟨"自习", ("图书馆", "1"), 39600, 41400⟩,
         ⟨"午餐", ("食堂", "01"), 41400, 45000⟩,
         ⟨"自习", ("图书馆", "1"), 45000, 50400⟩,
         ⟨"晚上休息/回宿舍", ("宿舍", "001栋"), 68400, 79200⟩] := rfl

/-- Claim C4 (amended): whenever a free interval's overlap with a meal
window exceeds one hour, the overlap time beyond the capped meal record
is not dropped — it is absorbed into the trailing record of the same
slot (a study record after an interior lunch, the evening-rest record
after the last slot's dinner), which starts exactly at the capped meal
end and runs to the slot end.  It merely gets no record of its own. -/
theorem meal_cap_leftover_in_trailing_record :
    (∀ (day : String) (home canteen library : String × String)
        (f l : Nat × Nat) (s e : Nat),
        max s LUNCH_START + 3600 < min e LUNCH_END →
        Event.mk "自习" library (max s LUNCH_START + 3600) e
          ∈ fill_free_time day [f, (s, e), l] home canteen library)
    ∧ (∀ (day : String) (home canteen library : String × String)
        (f : Nat × Nat) (ls le' : Nat),
        max ls DINNER_START + 3600 < min le' DINNER_END →
        Event.mk "晚上休息/回宿舍" home (max ls DINNER_START + 3600) le'
          ∈ fill_free_time day [f, (ls, le')] home canteen library) := by
  constructor
  · intro day home canteen library f l s e hov
    have hle : min e LUNCH_END ≤ e := Nat.min_le_left _ _
    have hmin : min (min e LUNCH_END - max s LUNCH_START) 3600 = 3600 := by omega
    have hmid : middles [f, (s, e), l] = [(s, e)] := by
      simp [middles]
    have hlt : max s LUNCH_START < min e LUNCH_END := by omega
    have hpost : max s LUNCH_START + min (min e LUNCH_END - max s LUNCH_START) 3600 < e := by
      omega
    simp only [fill_free_time, hmid, processMiddles, hmin, List.mem_cons,
      List.mem_append]
    rw [if_pos ⟨trivial, hlt⟩, if_pos (by omega : max s LUNCH_START + 3600 < e)]
    simp
  · intro day home canteen library f ls le' hov
    have hle : min le' DINNER_END ≤ le' := Nat.min_le_left _ _
    have hmin : min (min le' DINNER_END - max ls DINNER_START) 3600 = 3600 := by omega
    have hlt : max ls DINNER_START < min le' DINNER_END := by omega
    simp only [fill_free_time, lastPart, List.mem_cons, List.mem_append]
    rw [if_pos (by simp : ([f, (ls, le')] : List (Nat × Nat)).length > 1)]
    simp only [List.getLast?_cons_cons, List.getLast?_singleton]
    rw [if_pos hlt, hmin, if_pos (by omega : max ls DINNER_START + 3600 < le')]
    simp [middles]

/-- Witness for `meal_cap_leftover_in_trailing_record`: interior slot
`[11:00, 14:00)` yields a trailing study block `12:30–14:00`; last slot
`[16:00, 22:00)` yields an evening-rest block `18:30–22:00`. -/
theorem meal_cap_leftover_in_trailing_record_witness :
    Event.mk "自习" ("图书馆", "2") 45000 50400
      ∈ fill_free_time "星期3" [(25200, 26000), (39600, 50400), (70000, 71000)]
          ("宿舍", "002栋") ("食堂", "02") ("图书馆", "2")
    ∧ Event.mk "晚上休息/回宿舍" ("宿舍", "003栋") 66600 79200
      ∈ fill_free_time "星期4" [(25200, 26000), (57600, 79200)]
          ("宿舍", "003栋") ("食堂", "03") ("图书馆", "3") :=
  ⟨meal_cap_leftover_in_trailing_record.1 "星期3" ("宿舍", "002栋") ("食堂", "02")
      ("图书馆", "2") (25200, 26000) (70000, 71000) 39600 50400 (by decide),
   meal_cap_leftover_in_trailing_record.2 "星期4" ("宿舍", "003栋") ("食堂", "03")
      ("图书馆", "3") (25200, 26000) 57600 79200 (by decide)⟩

/-! ## Single-lunch invariant -/

/-- The interior-loop lunch condition: the slot's overlap with the
lunch window is non-empty (`lunch_overlap_start < lunch_overlap_end`). -/
def overlapsLunch (p : Nat × Nat) : Bool :=
  decide (max p.1 LUNCH_START < min p.2 LUNCH_END)

/-- Once the `ate_lunch` flag is set, the interior loop emits no lunch
record at all. -/
lemma processMiddles_true_no_lunch :
    ∀ (mids : List (Nat × Nat)) (canteen library : String × String),
      (processMiddles canteen library true mids).filter
        (fun ev => ev.activity == "午餐") = [] := by
  intro mids
  induction mids with
  | nil => intro c l; rfl
  | cons q tail ih =>
    intro c l
    obtain ⟨s, e⟩ := q
    simp only [processMiddles]
    rw [if_neg (by simp)]
    rw [List.filter_append, ih]
    split
    · simp [List.filter_cons, show (("自习" : String) == "午餐") = false from rfl]
    · simp

/-- With the flag unset, the lunch records the interior loop emits are
exactly one record for the first slot overlapping the lunch window (or
none when no slot overlaps it). -/
lemma processMiddles_false_lunch_filter :
    ∀ (mids : List (Nat × Nat)) (canteen library : String × String),
      (processMiddles canteen library false mids).filter
          (fun ev => ev.activity == "午餐")
        = match mids.find? overlapsLunch with
          | none => []
          | some p => [⟨"午餐", canteen, max p.1 LUNCH_START,
              max p.1 LUNCH_START
                + min (min p.2 LUNCH_END - max p.1 LUNCH_START) 3600⟩] := by
  intro mids
  induction mids with
  | nil => intro c l; rfl
  | cons q tail ih =>
    intro c l
    obtain ⟨s, e⟩ := q
    by_cases hov : max s LUNCH_START < min e LUNCH_END
    · rw [List.find?_cons_of_pos _ (by simpa [overlapsLunch] using hov)]
      simp only [processMiddles]
      rw [if_pos ⟨trivial, hov⟩]
      rw [List.filter_append, List.filter_append, List.filter_append,
        processMiddles_true_no_lunch]
      have hpre : ∀ a b : Nat,
          (if s < max s LUNCH_START then
              [Event.mk "自习" l a b] else []).filter
            (fun ev => ev.activity == "午餐") = [] := by
        intro a b
        split
        · simp [List.filter_cons, show (("自习" : String) == "午餐") = false from rfl]
        · simp
      rw [hpre]
      have hpost :
          (if max s LUNCH_START + min (min e LUNCH_END - max s LUNCH_START) 3600 < e
              then [Event.mk "自习" l
                (max s LUNCH_START + min (min e LUNCH_END - max s LUNCH_START) 3600) e]
              else []).filter (fun ev => ev.activity == "午餐") = [] := by
        split
        · simp [List.filter_cons, show (("自习" : String) == "午餐") = false from rfl]
        · simp
      rw [hpost]
      simp [List.filter_cons, show (("午餐" : String) == "午餐") = true from rfl]
    · rw [List.find?_cons_of_neg _ (by simpa [overlapsLunch] using hov)]
      simp only [processMiddles]
      rw [if_neg (by simp [hov])]
      rw [List.filter_append, ih]
      split
      · simp [List.filter_cons, show (("自习" : String) == "午餐") = false from rfl]
      · simp

/-- The last-slot / single-slot branch emits no lunch record. -/
lemma lastPart_no_lunch :
    ∀ (slots : List (Nat × Nat)) (home canteen library : String × String),
      (lastPart home canteen library slots).filter
        (fun ev => ev.activity == "午餐") = [] := by
  intro slots home c l
  unfold lastPart
  split
  · split
    · rfl
    · dsimp only
      split_ifs <;>
        simp [List.filter_append, List.filter_cons,
          show (("自习" : String) == "午餐") = false from rfl,
          show (("晚餐" : String) == "午餐") = false from rfl,
          show (("晚上休息/回宿舍" : String) == "午餐") = false from rfl]
  · split
    · split
      · rfl
      · simp [List.filter_cons,
          show (("休息/自由活动" : String) == "午餐") = false from rfl]
    · rfl

/-- Claim C6: single-lunch invariant.  Over any day's free-slot
sequence, the lunch records emitted by the Gap Filler are exactly the
singleton for the FIRST interior slot overlapping the lunch window
(empty when no interior slot overlaps it) — in particular at most one
lunch record is ever produced, no matter how many interior slots
overlap the window. -/
theorem single_lunch_invariant :
    ∀ (day : String) (slots : List (Nat × Nat))
      (home canteen library : String × String),
      (fill_free_time day slots home canteen library).filter
          (fun ev => ev.activity == "午餐")
        = match (middles slots).find? overlapsLunch with
          | none => []
          | some p => [⟨"午餐", canteen, max p.1 LUNCH_START,
              max p.1 LUNCH_START
                + min (min p.2 LUNCH_END - max p.1 LUNCH_START) 3600⟩] := by
  intro day slots home canteen library
  match slots with
  | [] => rfl
  | (fs, fe) :: rest =>
    simp only [fill_free_time]
    rw [List.filter_cons]
    rw [if_neg (by simp [show (("起床/准备/早餐" : String) == "午餐") = false from rfl])]
    rw [List.filter_append, processMiddles_false_lunch_filter, lastPart_no_lunch]
    simp

/-! ## Meal duration cap -/

/-- An interior slot with no lunch overlap leaves the `ate_lunch` flag
unset and only prepends study blocks, so membership in the rest of the
loop's output is preserved. -/
lemma processMiddles_mem_of_no_overlap :
    ∀ (mids1 rest : List (Nat × Nat)) (canteen library : String × String)
      (ev : Event),
      (∀ p ∈ mids1, ¬ (max p.1 LUNCH_START < min p.2 LUNCH_END)) →
      ev ∈ processMiddles canteen library false rest →
      ev ∈ processMiddles canteen library false (mids1 ++ rest) := by
  intro mids1
  induction mids1 with
  | nil => intro rest c l ev _ h; exact h
  | cons q tail ih =>
    intro rest c l ev hno h
    obtain ⟨s, e⟩ := q
    have hq := hno (s, e) (List.mem_cons_self _ _)
    simp only [List.cons_append, processMiddles]
    rw [if_neg (by intro hc; exact hq hc.2)]
    rw [List.mem_append]
    right
    exact ih rest c l ev (fun p hp => hno p (List.mem_cons_of_mem _ hp)) h

/-- Claim C7: meal cap.  When a free interval fully contains a meal
window, the emitted meal record starts at the overlap start (= the
window start) and lasts exactly `min(window length, 3600)` seconds,
however much larger the free interval is.  Lunch: the first interior
slot overlapping the window (any interior position, provided the
earlier interior slots do not overlap the window).  Dinner: the last
slot. -/
theorem meal_cap_duration :
    (∀ (day : String) (home canteen library : String × String)
        (mids1 mids2 : List (Nat × Nat)) (f l : Nat × Nat) (s e : Nat),
        (∀ p ∈ mids1, ¬ (max p.1 LUNCH_START < min p.2 LUNCH_END)) →
        s ≤ LUNCH_START → LUNCH_END ≤ e →
        Event.mk "午餐" canteen LUNCH_START
            (LUNCH_START + min (LUNCH_END - LUNCH_START) 3600)
          ∈ fill_free_time day (f :: (mids1 ++ (s, e) :: mids2) ++ [l])
              home canteen library)
    ∧ (∀ (day : String) (home canteen library : String × String)
        (pre : List (Nat × Nat)) (f : Nat × Nat) (ls le' : Nat),
        ls ≤ DINNER_START → DINNER_END ≤ le' →
        Event.mk "晚餐" canteen DINNER_START
            (DINNER_START + min (DINNER_END - DINNER_START) 3600)
          ∈ fill_free_time day ((f :: pre) ++ [(ls, le')])
              home canteen library) := by
  constructor
  · intro day home canteen library mids1 mids2 f l s e hno hs he
    have hmax : max s LUNCH_START = LUNCH_START := Nat.max_eq_right hs
    have hmin : min e LUNCH_END = LUNCH_END := Nat.min_eq_right he
    have hmid : middles (f :: (mids1 ++ (s, e) :: mids2) ++ [l])
        = mids1 ++ (s, e) :: mids2 := by
      unfold middles
      rw [if_pos (by simp; omega)]
      show ((mids1 ++ (s, e) :: mids2) ++ [l]).dropLast = mids1 ++ (s, e) :: mids2
      exact List.dropLast_concat
    simp only [fill_free_time, hmid]
    apply List.mem_cons_of_mem
    apply List.mem_append_left
    refine processMiddles_mem_of_no_overlap mids1 ((s, e) :: mids2)
      canteen library _ hno ?_
    simp only [processMiddles, hmax, hmin]
    rw [if_pos ⟨trivial, by decide⟩]
    simp
  · intro day home canteen library pre f ls le' hls hle
    have hmax : max ls DINNER_START = DINNER_START := Nat.max_eq_right hls
    have hmin : min le' DINNER_END = DINNER_END := Nat.min_eq_right hle
    simp only [List.cons_append, fill_free_time]
    apply List.mem_cons_of_mem
    apply List.mem_append_right
    unfold lastPart
    rw [if_pos (by simp)]
    rw [show ((f :: (pre ++ [(ls, le')])) : List (Nat × Nat)).getLast?
          = some (ls, le') from by
        rw [← List.cons_append]
        exact List.getLast?_concat _]
    dsimp only
    rw [hmax, hmin]
    rw [if_pos (by decide)]
    simp

/-- Witness for `meal_cap_duration`: a 3-hour interior slot around the
2-hour lunch window yields lunch `11:30–12:30`; a last slot containing
the 1.5-hour dinner window yields dinner `17:30–18:30`. -/
theorem meal_cap_duration_witness :
    Event.mk "午餐" ("食堂", "05") 41400 45000
      ∈ fill_free_time "星期5" [(25200, 26000), (39600, 50400), (70000, 71000)]
          ("宿舍", "005栋") ("食堂", "05") ("图书馆", "2")
    ∧ Event.mk "晚餐" ("食堂", "06") 63000 66600
      ∈ fill_free_time "星期6" [(25200, 26000), (36000, 79200)]
          ("宿舍", "006栋") ("食堂", "06") ("图书馆", "3") :=
  ⟨meal_cap_duration.1 "星期5" ("宿舍", "005栋") ("食堂", "05") ("图书馆", "2")
      [] [] (25200, 26000) (70000, 71000) 39600 50400 (by simp) (by decide)
      (by decide),
   meal_cap_duration.2 "星期6" ("宿舍", "006栋") ("食堂", "06") ("图书馆", "3")
      [] (25200, 26000) 36000 79200 (by decide) (by decide)⟩

/-! ## Time Range Parser failure policy -/

/-- Claim C9: the parser succeeds exactly when the input contains
exactly two `HH:MM:SS`-shaped substrings and both are valid
times-of-day; with zero, one, or more than two matches, or an
out-of-range component, it returns the failure value (it is a total
function, so it never raises). -/
theorem parser_failure_policy :
    ∀ s : String,
      (parse_start_end_from_string s).isSome ↔
        ((findTimes s.data).length = 2
          ∧ ∀ t ∈ findTimes s.data, isValidHMS t = true) := by
  intro s
  unfold parse_start_end_from_string
  generalize findTimes s.data = ts
  match ts with
  | [] => simp
  | [t1] => simp
  | [t1, t2] =>
    by_cases h1 : isValidHMS t1 <;> by_cases h2 : isValidHMS t2 <;>
      simp [h1, h2]
  | t1 :: t2 :: t3 :: rest => simp

/-! ## Synthetic row shape and its sort key -/

/-- A row whose last field does not re-parse sorts at second 0 of its
day. -/
lemma key_snd_of_last_unparsable (row : List String) (x : String)
    (h1 : row.getLast? = some x)
    (h2 : parse_start_end_from_string x = none) :
    (get_sort_key row).2 = 0 := by
  simp [get_sort_key, h1, h2]

/-- Fields that fail to parse differ from any string that parses. -/
lemma ne_of_parse_none {x ts : String}
    (hx : parse_start_end_from_string x = none)
    (hts : (parse_start_end_from_string ts).isSome) : x ≠ ts := by
  intro h
  rw [h] at hx
  rw [hx] at hts
  simp at hts

/-- Claim C10: shape of the serialized synthetic row.  For any target
column count `n`: the row has exactly `n` fields; the formatted
interval string is the row's last field iff `n = 9` (for larger `n` the
trailing padding `"-"` is last, for smaller `n` the interval string is
truncated away); and in every `n ≠ 9` case re-deriving the sort key
fails to parse the last field, so the row is assigned start time 0
(`00:00:00`) for its day.  The hypotheses record that none of the
non-interval fields of a synthetic row parses as a time range while the
serialized interval does — true of every value the script ever passes
(activity labels, weekday labels, location names). -/
theorem synthetic_row_shape :
    ∀ (day : String) (n : Nat) (ev : Event),
      parse_start_end_from_string ev.activity = none →
      parse_start_end_from_string day = none →
      parse_start_end_from_string ev.loc.1 = none →
      parse_start_end_from_string ev.loc.2 = none →
      (parse_start_end_from_string (format_time_range ev.start ev.stop)).isSome →
      (create_new_row day n ev).length = n
      ∧ ((create_new_row day n ev).getLast?
            = some (format_time_range ev.start ev.stop) ↔ n = 9)
      ∧ (n ≠ 9 → (get_sort_key (create_new_row day n ev)).2 = 0) := by
  intro day n ev hA hD hL1 hL2 hT
  obtain ⟨act, ⟨lt, ln⟩, sv, ev'⟩ := ev
  simp only at hA hL1 hL2 hT
  have hdash : parse_start_end_from_string "-" = none := rfl
  have hlen : (create_new_row day n ⟨act, (lt, ln), sv, ev'⟩).length = n := by
    simp [create_new_row]
    omega
  refine ⟨hlen, ?_⟩
  by_cases h9 : n < 9
  · have hrepl : n - 9 = 0 := by omega
    have hrow : create_new_row day n ⟨act, (lt, ln), sv, ev'⟩
        = ([act, day, "-", "-", "-", "-", lt, ln,
            format_time_range sv ev'] : List String).take n := by
      simp [create_new_row, hrepl]
    interval_cases n <;> rw [hrow] <;>
      refine ⟨?_, fun _ => ?_⟩
    · simp
    · simp [get_sort_key]
    · simp only [List.take_succ_cons, List.take_zero, List.getLast?_singleton,
        Option.some_inj]
      exact ⟨fun h => absurd h (ne_of_parse_none hA hT), fun h => by omega⟩
    · exact key_snd_of_last_unparsable _ act rfl hA
    · simp only [List.take_succ_cons, List.take_zero, List.getLast?_cons_cons,
        List.getLast?_singleton, Option.some_inj]
      exact ⟨fun h => absurd h (ne_of_parse_none hD hT), fun h => by omega⟩
    · exact key_snd_of_last_unparsable _ day rfl hD
    · simp only [List.take_succ_cons, List.take_zero, List.getLast?_cons_cons,
        List.getLast?_singleton, Option.some_inj]
      exact ⟨fun h => absurd h (ne_of_parse_none hdash hT), fun h => by omega⟩
    · exact key_snd_of_last_unparsable _ "-" rfl hdash
    · simp only [List.take_succ_cons, List.take_zero, List.getLast?_cons_cons,
        List.getLast?_singleton, Option.some_inj]
      exact ⟨fun h => absurd h (ne_of_parse_none hdash hT), fun h => by omega⟩
    · exact key_snd_of_last_unparsable _ "-" rfl hdash
    · simp only [List.take_succ_cons, List.take_zero, List.getLast?_cons_cons,
        List.getLast?_singleton, Option.some_inj]
      exact ⟨fun h => absurd h (ne_of_parse_none hdash hT), fun h => by omega⟩
    · exact key_snd_of_last_unparsable _ "-" rfl hdash
    · simp only [List.take_succ_cons, List.take_zero, List.getLast?_cons_cons,
        List.getLast?_singleton, Option.some_inj]
      exact ⟨fun h => absurd h (ne_of_parse_none hdash hT), fun h => by omega⟩
    · exact key_snd_of_last_unparsable _ "-" rfl hdash
    · simp only [List.take_succ_cons, List.take_zero, List.getLast?_cons_cons,
        List.getLast?_singleton, Option.some_inj]
      exact ⟨fun h => absurd h (ne_of_parse_none hL1 hT), fun h => by omega⟩
    · exact key_snd_of_last_unparsable _ lt rfl hL1
    · simp only [List.take_succ_cons, List.take_zero, List.getLast?_cons_cons,
        List.getLast?_singleton, Option.some_inj]
      exact ⟨fun h => absurd h (ne_of_parse_none hL2 hT), fun h => by omega⟩
    · exact key_snd_of_last_unparsable _ ln rfl hL2
  · by_cases h9' : n = 9
    · subst h9'
      exact ⟨by constructor <;> intro <;> rfl, fun h => absurd rfl h⟩
    · have h9'' : 9 < n := by omega
      have hlast : (create_new_row day n ⟨act, (lt, ln), sv, ev'⟩).getLast?
          = some "-" := by
        unfold create_new_row
        rw [List.take_of_length_le (by simp; omega)]
        rw [List.getLast?_append, List.getLast?_replicate]
        rw [if_neg (by simp; omega)]
        rfl
      refine ⟨?_, fun _ => ?_⟩
      · rw [hlast]
        simp only [Option.some_inj]
        exact ⟨fun h => absurd h (ne_of_parse_none hdash hT),
          fun h => absurd h (by omega)⟩
      · exact key_snd_of_last_unparsable _ "-" hlast hdash

/-- Witness for `synthetic_row_shape`: a study event serialized at
column counts 10 and 9. -/
theorem synthetic_row_shape_witness :
    (create_new_row "星期1" 10 ⟨"自习", ("图书馆", "1"), 38100, 63000⟩).length = 10
    ∧ ((create_new_row "星期1" 10 ⟨"自习", ("图书馆", "1"), 38100, 63000⟩).getLast?
        = some (format_time_range 38100 63000) ↔ (10 : Nat) = 9)
    ∧ ((10 : Nat) ≠ 9 →
        (get_sort_key (create_new_row "星期1" 10
          ⟨"自习", ("图书馆", "1"), 38100, 63000⟩)).2 = 0) :=
  synthetic_row_shape "星期1" 10 ⟨"自习", ("图书馆", "1"), 38100, 63000⟩
    rfl rfl rfl rfl (by decide)

/-! ## Sort determinism -/

/-- The key order is transitive. -/
lemma keyLE_trans :
    ∀ a b c : List String,
      keyLE (get_sort_key a) (get_sort_key b) = true →
      keyLE (get_sort_key b) (get_sort_key c) = true →
      keyLE (get_sort_key a) (get_sort_key c) = true := by
  intro a b c
  simp only [keyLE, decide_eq_true_eq]
  omega

/-- The key order is total. -/
lemma keyLE_total :
    ∀ a b : List String,
      (keyLE (get_sort_key a) (get_sort_key b)
        || keyLE (get_sort_key b) (get_sort_key a)) = true := by
  intro a b
  simp only [keyLE, Bool.or_eq_true, decide_eq_true_eq]
  omega

/-- Claim C8: sort determinism.  The final sort permutes the record
set into an order that ascends by the pair (weekday ordinal, start
time); the ordinal comes from the fixed 7-entry mapping with every
unrecognized label mapped to 8, after all seven known labels; the
start time is re-derived by parsing each record's last field, and an
unparsable (or missing) last field yields start time 0 (`00:00:00`). -/
theorem sort_determinism :
    ∀ rows : List (List String),
      (sortRows rows).Perm rows
      ∧ (sortRows rows).Pairwise (fun r1 r2 =>
          (get_sort_key r1).1 < (get_sort_key r2).1
          ∨ ((get_sort_key r1).1 = (get_sort_key r2).1
              ∧ (get_sort_key r1).2 ≤ (get_sort_key r2).2))
      ∧ day_map.length = 7
      ∧ (∀ (d : String) (k : Nat), (d, k) ∈ day_map → dayMapGet d = k ∧ k ≤ 7)
      ∧ (∀ d : String, d ∉ day_map.map Prod.fst → dayMapGet d = 8)
      ∧ (∀ (row : List String) (s : String) (a b : Nat),
          row.getLast? = some s → parse_start_end_from_string s = some (a, b) →
          (get_sort_key row).2 = a)
      ∧ (∀ (row : List String) (s : String),
          row.getLast? = some s → parse_start_end_from_string s = none →
          (get_sort_key row).2 = 0) := by
  intro rows
  refine ⟨List.mergeSort_perm rows _, ?_, rfl, ?_, ?_, ?_, ?_⟩
  · have h := @List.sorted_mergeSort (List String)
      (fun r1 r2 => keyLE (get_sort_key r1) (get_sort_key r2))
      keyLE_trans keyLE_total rows
    refine h.imp ?_
    intro a b hab
    simpa [keyLE, decide_eq_true_eq] using hab
  · intro d k hm
    fin_cases hm <;> exact ⟨rfl, by omega⟩
  · intro d hd
    unfold dayMapGet
    cases hf : day_map.find? (fun p => p.1 == d) with
    | none => rfl
    | some p =>
      exfalso
      apply hd
      have hp : p.1 = d := by simpa using List.find?_some hf
      have hmem := List.mem_of_find?_eq_some hf
      exact hp ▸ List.mem_map_of_mem Prod.fst hmem
  · intro row s a b h1 h2
    simp [get_sort_key, h1, h2]
  · intro row s h1 h2
    simp [get_sort_key, h1, h2]

/-- Witness for `sort_determinism`: the mapped label `星期5`, the
unmapped label `星期8`, a parsable interval field and an unparsable
one. -/
theorem sort_determinism_witness :
    dayMapGet "星期5" = 5 ∧ (5 : Nat) ≤ 7
    ∧ dayMapGet "星期8" = 8
    ∧ (get_sort_key ["a", "星期2", "[1900-01-01 08:00:00, 1900-01-01 09:35:00]"]).2
        = 28800
    ∧ (get_sort_key ["a", "星期2", "no times here"]).2 = 0 :=
  ⟨((sort_determinism []).2.2.2.1 "星期5" 5 (by decide)).1,
   ((sort_determinism []).2.2.2.1 "星期5" 5 (by decide)).2,
   (sort_determinism []).2.2.2.2.1 "星期8" (by decide),
   (sort_determinism []).2.2.2.2.2.1
     ["a", "星期2", "[1900-01-01 08:00:00, 1900-01-01 09:35:00]"]
     "[1900-01-01 08:00:00, 1900-01-01 09:35:00]" 28800 34500 rfl (by decide),
   (sort_determinism []).2.2.2.2.2.2 ["a", "星期2", "no times here"]
     "no times here" rfl (by decide)⟩

end ScheduleFiller
